import Mathlib

/-!
Verification of the core logic of the "UWorld IDs → tags → cards" add-on
(`src/__init__.py`).  The definitions below are a shallow embedding of the
Python functions `_normalize_version_prefix`, `_extract_unique_int_strings`,
`_esc`, `_tag_prefix`, `build_tag_or_query`, `_compute_ids_summary_v11` and
`compute_ids_summary`.  The external search collaborator `mw.col.find_cards`
is modelled as an oracle `String → Except String (List ℕ)`; a Python
exception raised by the collaborator is the `Except.error` case.  The
computation additionally returns the ordered list of query strings issued to
the collaborator, so that claims about which queries are issued can be
stated.  Python leading underscores are dropped; names containing tokens
that clash with Lean keywords are lightly renamed (`_tag_prefix` → `tag_pfx`,
`_normalize_version_prefix` → `normalize_version_pfx`, and the report key
`"ids_syntax"` → field `ids_expr`).
-/

/-- ASCII whitespace, as stripped by Python `str.strip()`
(space, tab, newline, carriage return, vertical tab, form feed). -/
def isSpaceChar (c : Char) : Bool :=
  c.toNat == 32 || c.toNat == 9 || c.toNat == 10 || c.toNat == 13 ||
    c.toNat == 11 || c.toNat == 12

/-- ASCII decimal digit, the characters matched by the regex class `\d`. -/
def isDigitChar (c : Char) : Bool :=
  48 ≤ c.toNat && c.toNat ≤ 57

/-- Strip leading and trailing whitespace from a character list. -/
def stripList (l : List Char) : List Char :=
  ((l.dropWhile isSpaceChar).reverse.dropWhile isSpaceChar).reverse

/-- Python `s.strip()`. -/
def pyStrip (s : String) : String :=
  String.mk (stripList s.data)

/-- Python `s.endswith(suf)`. -/
def py_endswith (s suf : String) : Bool :=
  suf.data.isSuffixOf s.data

/-- Python `s.startswith(pre)`. -/
def py_startswith (s pre : String) : Bool :=
  pre.data.isPrefixOf s.data

/-- `VERSION_VALUE` dict from the source: `{"V12": "AK_Step1_v12", "V11": "AK_Step1_v11"}`. -/
def VERSION_VALUE (label : String) : String :=
  if label = "V12" then "AK_Step1_v12"
  else if label = "V11" then "AK_Step1_v11"
  else ""

def DEFAULT_VERSION_LABEL : String := "V12"

def UWORLD_SEGMENT_V12 : String := "::#UWorld::Step::"

def UWORLD_SEGMENT_V11 : String := "::#UWorld::"

/-- `_normalize_version_prefix`: strip the value, fall back to
`VERSION_VALUE[DEFAULT_VERSION_LABEL]` when empty, and ensure a leading `#`. -/
def normalize_version_pfx (deck_version_value : String) : String :=
  let s := pyStrip deck_version_value
  let s := if s = "" then VERSION_VALUE DEFAULT_VERSION_LABEL else s
  if py_startswith s "#" then s else "#" ++ s

/-- The maximal digit runs of a character list, left to right
(the matches of `re.finditer(r"\d+", raw)`).  `acc` is the reversed
current run. -/
def digitRunsAux : List Char → List Char → List String
  | [], acc => if acc = [] then [] else [String.mk acc.reverse]
  | c :: cs, acc =>
    if isDigitChar c then digitRunsAux cs (c :: acc)
    else if acc = [] then digitRunsAux cs []
    else String.mk acc.reverse :: digitRunsAux cs []

/-- All maximal decimal-digit runs of `raw`, in order of occurrence. -/
def digit_runs (raw : String) : List String :=
  digitRunsAux raw.data []

/-- The `seen`-set deduplication loop of `_extract_unique_int_strings`
(the `seen` Python set is modelled as the list of values added so far). -/
def uniqKeepFirst : List String → List String → List String
  | [], _ => []
  | x :: xs, seen =>
    if seen.contains x then uniqKeepFirst xs seen
    else x :: uniqKeepFirst xs (x :: seen)

/-- `_extract_unique_int_strings`: all maximal digit runs of the text,
keeping only the first occurrence of each value. -/
def extract_unique_int_strings (raw : String) : List String :=
  uniqKeepFirst (digit_runs raw) []

/-- `_esc`: escape every double quote as `\"`. -/
def escChars : List Char → List Char
  | [] => []
  | c :: cs => if c = '"' then '\\' :: '"' :: escChars cs else c :: escChars cs

/-- `_esc`: replace each double-quote character by a backslash-quote pair. -/
def esc (s : String) : String :=
  String.mk (escChars s.data)

/-- The `is_v11_style` condition of the source (lines 146 and 218):
the value ends with `_v11`, or is the legacy exception `AK_Step3_v12`. -/
def is_v11_style (deck_version_value : String) : Bool :=
  py_endswith deck_version_value "_v11" || deck_version_value == "AK_Step3_v12"

/-- `_tag_prefix`: normalized version token followed by the V11 (legacy) or
V12 (current) UWorld namespace segment. -/
def tag_pfx (deck_version_value : String) : String :=
  let base := normalize_version_pfx deck_version_value
  if is_v11_style deck_version_value then base ++ UWORLD_SEGMENT_V11
  else base ++ UWORLD_SEGMENT_V12

/-- The per-identifier wildcard fragment of `_compute_ids_summary_v11`:
the f-string tag:"esc(prefix_base)*::esc(id_s)". -/
def q11 (prefix_base id_s : String) : String :=
  "tag:\"" ++ esc prefix_base ++ "*::" ++ esc id_s ++ "\""

/-- The per-identifier exact fragment of the V12 path of
`compute_ids_summary`: the f-string tag:"esc(prefix + id_s)". -/
def q12 (pfx id_s : String) : String :=
  "tag:\"" ++ esc (pfx ++ id_s) ++ "\""

/-- The per-identifier probe query that `compute_ids_summary` issues for a
given selection: the wildcard form on the legacy (V11-style) path, the exact
form otherwise. -/
def per_id_query (deck_version_value id_s : String) : String :=
  if is_v11_style deck_version_value then q11 (tag_pfx deck_version_value) id_s
  else q12 (tag_pfx deck_version_value) id_s

/-- `build_tag_or_query`: strip the identifiers, drop empty ones, and join
the exact fragments with `" OR "` inside parentheses; empty list gives `""`. -/
def build_tag_or_query (ids : List String) (deck_version_value : String) : String :=
  let pfx := tag_pfx deck_version_value
  let ids2 := (ids.filter (fun i => !(i == "") && !(pyStrip i == ""))).map pyStrip
  if ids2 = [] then ""
  else "(" ++ String.intercalate " OR " (ids2.map (fun i => q12 pfx i)) ++ ")"

/-- The external search collaborator `mw.col.find_cards`: a query string
either raises (error message) or returns a sequence of card ids. -/
def Oracle : Type := String → Except String (List ℕ)

/-- The report dict assembled by `compute_ids_summary`
(`ids_expr` embeds the Python key `"ids_syntax"`). -/
structure SummaryReport where
  total_ids_input : ℕ
  total_cards : ℕ
  total_ids_without_cards : ℕ
  ids_expr : String
  ids_without_cards : List String
deriving DecidableEq, Repr

/-- The probe loop of `_compute_ids_summary_v11`: for each identifier issue
the wildcard query, collect `set(find_cards(q))` into `all_cids`, and append
the identifier to `ids_without` when the set is empty.  Also accumulates the
log of issued queries. -/
def v11_loop (oracle : Oracle) (prefix_base : String) :
    List String → Finset ℕ → List String → List String →
    Except String (Finset ℕ × List String × List String)
  | [], all_cids, ids_without, log => Except.ok (all_cids, ids_without, log)
  | id_s :: rest, all_cids, ids_without, log =>
    match oracle (q11 prefix_base id_s) with
    | Except.error e => Except.error e
    | Except.ok cids =>
      v11_loop oracle prefix_base rest (all_cids ∪ cids.toFinset)
        (if cids.toFinset = ∅ then ids_without ++ [id_s] else ids_without)
        (log ++ [q11 prefix_base id_s])

/-- `_compute_ids_summary_v11`. -/
def compute_ids_summary_v11 (oracle : Oracle) (deck_version_value : String)
    (ids : List String) : Except String (SummaryReport × List String) :=
  if ids = [] then
    Except.ok (⟨ids.length, 0, 0, "", []⟩, [])
  else
    let prefix_base := tag_pfx deck_version_value
    match v11_loop oracle prefix_base ids ∅ [] [] with
    | Except.error e => Except.error e
    | Except.ok (all_cids, ids_without, log) =>
      let ids_syntax_expr :=
        if ids = [] then ""
        else "(" ++ String.intercalate " OR " (ids.map (fun i => q11 prefix_base i)) ++ ")"
      Except.ok
        (⟨ids.length, all_cids.card, ids_without.length, ids_syntax_expr, ids_without⟩, log)

/-- The per-identifier probe loop of the V12 path of `compute_ids_summary`. -/
def v12_loop (oracle : Oracle) (pfx : String) :
    List String → List String → List String →
    Except String (List String × List String)
  | [], ids_without, log => Except.ok (ids_without, log)
  | id_s :: rest, ids_without, log =>
    match oracle (q12 pfx id_s) with
    | Except.error e => Except.error e
    | Except.ok cids =>
      v12_loop oracle pfx rest
        (if cids.toFinset = ∅ then ids_without ++ [id_s] else ids_without)
        (log ++ [q12 pfx id_s])

/-- `compute_ids_summary`: extract identifiers, early-return a zero report
when there are none, dispatch legacy selections to the V11 logic, otherwise
issue the aggregate query and then one exact probe per identifier. -/
def compute_ids_summary (oracle : Oracle) (deck_version_value : String)
    (ids_questions : String) : Except String (SummaryReport × List String) :=
  let ids := extract_unique_int_strings ids_questions
  if ids = [] then
    Except.ok (⟨ids.length, 0, 0, "", []⟩, [])
  else
    if is_v11_style deck_version_value then
      compute_ids_summary_v11 oracle deck_version_value ids
    else
      let ids_syntax_expr := build_tag_or_query ids deck_version_value
      if ids_syntax_expr = "" then
        Except.ok (⟨ids.length, 0, 0, ids_syntax_expr, []⟩, [])
      else
        match oracle ids_syntax_expr with
        | Except.error e => Except.error e
        | Except.ok cids_all =>
          match v12_loop oracle (tag_pfx deck_version_value) ids [] [ids_syntax_expr] with
          | Except.error e => Except.error e
          | Except.ok (ids_without, log) =>
            Except.ok
              (⟨ids.length, cids_all.toFinset.card, ids_without.length,
                ids_syntax_expr, ids_without⟩, log)

/-- A probe query "returns the empty set": the oracle answers it with a
sequence whose set of card ids is empty. -/
def probe_empty (oracle : Oracle) (q : String) : Bool :=
  match oracle q with
  | Except.ok cids => cids.toFinset = ∅
  | Except.error _ => false

/-- Spec-side rendering of "the distinct runs, in order of first occurrence,
with duplicates removed": keep each value the first time it appears and
delete its later occurrences. -/
def specDedup : List String → List String
  | [] => []
  | x :: xs => x :: specDedup (xs.filter (fun y => !(y == x)))
termination_by l => l.length
decreasing_by
  simp only [List.length_cons]
  exact Nat.lt_succ_of_le (List.length_filter_le _ _)

deriving instance DecidableEq for Except

/-! ### Character-level helper lemmas -/

lemma isSpaceChar_of_isDigitChar {c : Char} (h : isDigitChar c = true) :
    isSpaceChar c = false := by
  simp only [isDigitChar, Bool.and_eq_true, decide_eq_true_eq] at h
  simp only [isSpaceChar, Bool.or_eq_false_iff, beq_eq_false_iff_ne, ne_eq]
  omega

lemma dropWhile_eq_nil_of_all {p : Char → Bool} :
    ∀ {l : List Char}, (∀ c ∈ l, p c = true) → l.dropWhile p = []
  | [], _ => rfl
  | c :: cs, h => by
    rw [List.dropWhile_cons, if_pos (h c (List.mem_cons_self c cs))]
    exact dropWhile_eq_nil_of_all fun d hd => h d (List.mem_cons_of_mem c hd)

lemma stripList_of_all_space {l : List Char} (h : ∀ c ∈ l, isSpaceChar c = true) :
    stripList l = [] := by
  unfold stripList
  rw [dropWhile_eq_nil_of_all h]
  rfl

lemma dropWhile_eq_self_of_head {p : Char → Bool} {l : List Char}
    (hne : l ≠ []) (h : ∀ c ∈ l, p c = false) : l.dropWhile p = l := by
  cases l with
  | nil => exact absurd rfl hne
  | cons c cs =>
    rw [List.dropWhile_cons, if_neg]
    simp [h c (List.mem_cons_self c cs)]

lemma stripList_of_all_digit {l : List Char} (hne : l ≠ [])
    (h : ∀ c ∈ l, isDigitChar c = true) : stripList l = l := by
  have hns : ∀ c ∈ l, isSpaceChar c = false :=
    fun c hc => isSpaceChar_of_isDigitChar (h c hc)
  unfold stripList
  rw [dropWhile_eq_self_of_head hne hns,
    dropWhile_eq_self_of_head (by simpa using hne) (fun c hc => hns c (by simpa using hc)),
    List.reverse_reverse]

lemma pyStrip_of_all_digit {s : String} (hne : s.data ≠ [])
    (h : ∀ c ∈ s.data, isDigitChar c = true) : pyStrip s = s := by
  unfold pyStrip
  rw [stripList_of_all_digit hne h]

lemma pyStrip_ne_empty {s : String} (hne : s.data ≠ [])
    (h : ∀ c ∈ s.data, isDigitChar c = true) : pyStrip s ≠ "" := by
  rw [pyStrip_of_all_digit hne h]
  intro hs
  exact hne (congrArg String.data hs)

lemma escChars_append : ∀ (a b : List Char),
    escChars (a ++ b) = escChars a ++ escChars b
  | [], b => rfl
  | c :: cs, b => by
    have ih := escChars_append cs b
    show escChars (c :: (cs ++ b)) = escChars (c :: cs) ++ escChars b
    rw [show escChars (c :: (cs ++ b)) =
        (if c = '\x22' then '\\' :: '\x22' :: escChars (cs ++ b)
         else c :: escChars (cs ++ b)) from rfl,
      show escChars (c :: cs) =
        (if c = '\x22' then '\\' :: '\x22' :: escChars cs
         else c :: escChars cs) from rfl, ih]
    split <;> rfl

lemma esc_append (s t : String) : esc (s ++ t) = esc s ++ esc t := by
  apply String.ext
  simp only [esc, String.data_append]
  exact escChars_append s.data t.data

/-! ### Digit-run extraction lemmas -/

lemma digitRunsAux_mem : ∀ (l acc : List Char) (s : String),
    (∀ c ∈ acc, isDigitChar c = true) → s ∈ digitRunsAux l acc →
    s.data ≠ [] ∧ ∀ c ∈ s.data, isDigitChar c = true
  | [], acc, s, hacc, hs => by
    unfold digitRunsAux at hs
    split at hs
    · simp at hs
    · rename_i hne
      simp only [List.mem_singleton] at hs
      subst hs
      refine ⟨by simpa using hne, ?_⟩
      intro c hc
      exact hacc c (by simpa using hc)
  | ch :: cs, acc, s, hacc, hs => by
    unfold digitRunsAux at hs
    split at hs
    · rename_i hd
      exact digitRunsAux_mem cs (ch :: acc) s
        (by intro c hc; rcases List.mem_cons.mp hc with h | h
            · exact h ▸ hd
            · exact hacc c h) hs
    · split at hs
      · exact digitRunsAux_mem cs [] s (by simp) hs
      · rename_i hne
        rcases List.mem_cons.mp hs with h | h
        · subst h
          refine ⟨by simpa using hne, ?_⟩
          intro c hc
          exact hacc c (by simpa using hc)
        · exact digitRunsAux_mem cs [] s (by simp) h

lemma digitRunsAux_flatten : ∀ (l acc : List Char),
    ((digitRunsAux l acc).map String.data).flatten =
      acc.reverse ++ l.filter isDigitChar
  | [], acc => by
    unfold digitRunsAux
    split
    · rename_i h; subst h; simp
    · simp
  | ch :: cs, acc => by
    unfold digitRunsAux
    split
    · rename_i hd
      rw [digitRunsAux_flatten cs (ch :: acc)]
      simp [List.filter_cons, hd]
    · rename_i hd
      have hd' : isDigitChar ch = false := by simpa using hd
      split
      · rename_i h; subst h
        rw [digitRunsAux_flatten cs []]
        simp [List.filter_cons, hd']
      · simp only [List.map_cons, List.flatten_cons]
        rw [digitRunsAux_flatten cs []]
        simp [List.filter_cons, hd']

lemma digit_runs_eq_nil {raw : String}
    (h : ∀ c ∈ raw.data, isDigitChar c = false) : digit_runs raw = [] := by
  have hflat : ((digit_runs raw).map String.data).flatten = [] := by
    unfold digit_runs
    rw [digitRunsAux_flatten]
    simpa using List.filter_eq_nil_iff.mpr (by simpa using h)
  cases hrs : digit_runs raw with
  | nil => rfl
  | cons s t =>
    rw [hrs] at hflat
    simp only [List.map_cons, List.flatten_cons, List.append_eq_nil] at hflat
    have hsmem : s ∈ digit_runs raw := by
      rw [hrs]
      exact List.mem_cons_self s t
    have := (digitRunsAux_mem raw.data [] s (by simp) hsmem).1
    exact absurd hflat.1 this

/-! ### Deduplication lemmas -/

lemma uniqKeepFirst_subset : ∀ (l seen : List String) (x : String),
    x ∈ uniqKeepFirst l seen → x ∈ l
  | [], _, x, h => by simp [uniqKeepFirst] at h
  | y :: ys, seen, x, h => by
    unfold uniqKeepFirst at h
    split at h
    · exact List.mem_cons_of_mem y (uniqKeepFirst_subset ys seen x h)
    · rcases List.mem_cons.mp h with h | h
      · exact h ▸ List.mem_cons_self y ys
      · exact List.mem_cons_of_mem y (uniqKeepFirst_subset ys (y :: seen) x h)

lemma uniqKeepFirst_not_seen : ∀ (l seen : List String) (x : String),
    x ∈ uniqKeepFirst l seen → seen.contains x = false
  | [], _, x, h => by simp [uniqKeepFirst] at h
  | y :: ys, seen, x, h => by
    unfold uniqKeepFirst at h
    split at h
    · exact uniqKeepFirst_not_seen ys seen x h
    · rename_i hns
      rcases List.mem_cons.mp h with h | h
      · subst h
        simpa using hns
      · have h2 := uniqKeepFirst_not_seen ys (y :: seen) x h
        simp only [List.contains_cons, Bool.or_eq_false_iff] at h2
        exact h2.2

lemma uniqKeepFirst_nodup : ∀ (l seen : List String),
    (uniqKeepFirst l seen).Nodup
  | [], _ => List.nodup_nil
  | y :: ys, seen => by
    unfold uniqKeepFirst
    split
    · exact uniqKeepFirst_nodup ys seen
    · refine List.nodup_cons.mpr ⟨?_, uniqKeepFirst_nodup ys (y :: seen)⟩
      intro hmem
      have := uniqKeepFirst_not_seen ys (y :: seen) y hmem
      simp at this

lemma uniqKeepFirst_eq_specDedup : ∀ (l seen : List String),
    uniqKeepFirst l seen = specDedup (l.filter (fun y => !seen.contains y))
  | [], seen => by
    simp [uniqKeepFirst, specDedup]
  | x :: xs, seen => by
    unfold uniqKeepFirst
    cases hx : seen.contains x with
    | true =>
      rw [if_pos rfl, List.filter_cons, if_neg (by rw [hx]; simp)]
      exact uniqKeepFirst_eq_specDedup xs seen
    | false =>
      rw [if_neg Bool.false_ne_true, List.filter_cons, if_pos (by rw [hx]; simp)]
      simp only [specDedup, List.filter_filter]
      rw [uniqKeepFirst_eq_specDedup xs (x :: seen)]
      congr 2
      apply List.filter_congr
      intro y _
      simp [List.contains_cons, Bool.not_or, Bool.beq_eq_decide_eq]

/-! ### Extraction corollaries -/

lemma extract_eq_specDedup (raw : String) :
    extract_unique_int_strings raw = specDedup (digit_runs raw) := by
  unfold extract_unique_int_strings
  rw [uniqKeepFirst_eq_specDedup]
  congr 1
  rw [show (fun y : String => !([] : List String).contains y) = (fun _ => true) from rfl]
  exact List.filter_true _

lemma extract_nodup (raw : String) :
    (extract_unique_int_strings raw).Nodup :=
  uniqKeepFirst_nodup _ _

lemma extract_sublist (raw : String) :
    (extract_unique_int_strings raw).Sublist (digit_runs raw) := by
  rw [extract_eq_specDedup]
  generalize digit_runs raw = l
  induction l using specDedup.induct with
  | case1 => simp [specDedup]
  | case2 x xs ih =>
    rw [specDedup]
    exact (ih.trans (List.filter_sublist xs)).cons₂ x

lemma extract_mem_digit {raw : String} {i : String}
    (h : i ∈ extract_unique_int_strings raw) :
    i.data ≠ [] ∧ ∀ c ∈ i.data, isDigitChar c = true :=
  digitRunsAux_mem raw.data [] i (by simp)
    (uniqKeepFirst_subset _ _ _ h)

lemma extract_mem_runs {raw : String} {i : String}
    (h : i ∈ digit_runs raw) : i ∈ extract_unique_int_strings raw := by
  rw [extract_eq_specDedup]
  generalize hl : digit_runs raw = l at h
  clear hl
  induction l using specDedup.induct with
  | case1 => simp at h
  | case2 x xs ih =>
    rw [specDedup]
    rcases List.mem_cons.mp h with h | h
    · exact h ▸ List.mem_cons_self _ _
    · by_cases hx : i = x
      · exact hx ▸ List.mem_cons_self _ _
      · exact List.mem_cons_of_mem x
          (ih (List.mem_filter.mpr ⟨h, by simp [hx]⟩))

lemma extract_empty_of_no_digit {raw : String}
    (h : ∀ c ∈ raw.data, isDigitChar c = false) :
    extract_unique_int_strings raw = [] := by
  unfold extract_unique_int_strings
  rw [digit_runs_eq_nil h]
  rfl

/-! ### Query-builder lemmas -/

lemma string_paren_ne_empty (s : String) : "(" ++ s ≠ "" := by
  intro h
  have := congrArg String.data h
  simp [String.data_append] at this

lemma build_tag_or_query_digits {ids : List String} (v : String)
    (h : ∀ i ∈ ids, i.data ≠ [] ∧ ∀ c ∈ i.data, isDigitChar c = true) :
    build_tag_or_query ids v =
      if ids = [] then ""
      else "(" ++ String.intercalate " OR "
        (ids.map (fun i => q12 (tag_pfx v) i)) ++ ")" := by
  unfold build_tag_or_query
  have hfilter : ids.filter (fun i => !(i == "") && !(pyStrip i == "")) = ids := by
    apply List.filter_eq_self.mpr
    intro i hi
    have hne : i ≠ "" := fun he =>
      (h i hi).1 (congrArg String.data he)
    have hps : pyStrip i ≠ "" := pyStrip_ne_empty (h i hi).1 (h i hi).2
    simp [hne, hps]
  have hmap : ids.map pyStrip = ids := by
    rw [List.map_congr_left (fun i hi => pyStrip_of_all_digit (h i hi).1 (h i hi).2)]
    exact List.map_id ids
  rw [hfilter, hmap]

lemma build_tag_or_query_ne_empty {ids : List String} (v : String)
    (hne : ids ≠ [])
    (h : ∀ i ∈ ids, i.data ≠ [] ∧ ∀ c ∈ i.data, isDigitChar c = true) :
    build_tag_or_query ids v ≠ "" := by
  rw [build_tag_or_query_digits v h, if_neg hne]
  exact string_paren_ne_empty _

/-! ### Probe-loop lemmas -/

lemma v11_loop_ok (oracle : Oracle) (pb : String) : ∀ (ids : List String)
    (allc : Finset ℕ) (idsw log : List String) (c : Finset ℕ) (w l : List String),
    v11_loop oracle pb ids allc idsw log = Except.ok (c, w, l) →
    w = idsw ++ ids.filter (fun i => probe_empty oracle (q11 pb i)) ∧
    l = log ++ ids.map (q11 pb) ∧
    ∀ q ∈ l, q ∈ log ∨ ∃ cids, oracle q = Except.ok cids
  | [], allc, idsw, log, c, w, l, h => by
    unfold v11_loop at h
    simp only [Except.ok.injEq, Prod.mk.injEq] at h
    obtain ⟨-, rfl, rfl⟩ := h
    refine ⟨by simp, by simp, fun q hq => Or.inl hq⟩
  | i :: rest, allc, idsw, log, c, w, l, h => by
    unfold v11_loop at h
    cases ho : oracle (q11 pb i) with
    | error e =>
      rw [ho] at h
      exact absurd h (by simp)
    | ok cids =>
      rw [ho] at h
      obtain ⟨hw, hl, hq⟩ := v11_loop_ok oracle pb rest _ _ _ c w l h
      have hpe : probe_empty oracle (q11 pb i) = decide (cids.toFinset = ∅) := by
        unfold probe_empty
        rw [ho]
      refine ⟨?_, ?_, ?_⟩
      · rw [hw, List.filter_cons, hpe]
        by_cases hc : cids.toFinset = ∅
        · simp [hc]
        · simp [hc]
      · rw [hl, List.map_cons, List.append_assoc]
        rfl
      · intro q hql
        rcases hq q hql with hmem | hok
        · rcases List.mem_append.mp hmem with h1 | h1
          · exact Or.inl h1
          · refine Or.inr ⟨cids, ?_⟩
            have hq1 : q = q11 pb i := by simpa using h1
            rw [hq1]
            exact ho
        · exact Or.inr hok

lemma v11_loop_error (oracle : Oracle) (pb : String) : ∀ (ids : List String)
    (allc : Finset ℕ) (idsw log : List String) (e : String),
    v11_loop oracle pb ids allc idsw log = Except.error e →
    ∃ q, oracle q = Except.error e
  | [], allc, idsw, log, e, h => by
    simp [v11_loop] at h
  | i :: rest, allc, idsw, log, e, h => by
    unfold v11_loop at h
    cases ho : oracle (q11 pb i) with
    | error e2 =>
      rw [ho] at h
      simp only [Except.error.injEq] at h
      exact ⟨q11 pb i, h ▸ ho⟩
    | ok cids =>
      rw [ho] at h
      exact v11_loop_error oracle pb rest _ _ _ e h

lemma v12_loop_ok (oracle : Oracle) (pfx : String) : ∀ (ids : List String)
    (idsw log : List String) (w l : List String),
    v12_loop oracle pfx ids idsw log = Except.ok (w, l) →
    w = idsw ++ ids.filter (fun i => probe_empty oracle (q12 pfx i)) ∧
    l = log ++ ids.map (q12 pfx) ∧
    ∀ q ∈ l, q ∈ log ∨ ∃ cids, oracle q = Except.ok cids
  | [], idsw, log, w, l, h => by
    unfold v12_loop at h
    simp only [Except.ok.injEq, Prod.mk.injEq] at h
    obtain ⟨rfl, rfl⟩ := h
    refine ⟨by simp, by simp, fun q hq => Or.inl hq⟩
  | i :: rest, idsw, log, w, l, h => by
    unfold v12_loop at h
    cases ho : oracle (q12 pfx i) with
    | error e =>
      rw [ho] at h
      exact absurd h (by simp)
    | ok cids =>
      rw [ho] at h
      obtain ⟨hw, hl, hq⟩ := v12_loop_ok oracle pfx rest _ _ w l h
      have hpe : probe_empty oracle (q12 pfx i) = decide (cids.toFinset = ∅) := by
        unfold probe_empty
        rw [ho]
      refine ⟨?_, ?_, ?_⟩
      · rw [hw, List.filter_cons, hpe]
        by_cases hc : cids.toFinset = ∅
        · simp [hc]
        · simp [hc]
      · rw [hl, List.map_cons, List.append_assoc]
        rfl
      · intro q hql
        rcases hq q hql with hmem | hok
        · rcases List.mem_append.mp hmem with h1 | h1
          · exact Or.inl h1
          · refine Or.inr ⟨cids, ?_⟩
            have hq1 : q = q12 pfx i := by simpa using h1
            rw [hq1]
            exact ho
        · exact Or.inr hok

lemma v12_loop_error (oracle : Oracle) (pfx : String) : ∀ (ids : List String)
    (idsw log : List String) (e : String),
    v12_loop oracle pfx ids idsw log = Except.error e →
    ∃ q, oracle q = Except.error e
  | [], idsw, log, e, h => by
    simp [v12_loop] at h
  | i :: rest, idsw, log, e, h => by
    unfold v12_loop at h
    cases ho : oracle (q12 pfx i) with
    | error e2 =>
      rw [ho] at h
      simp only [Except.error.injEq] at h
      exact ⟨q12 pfx i, h ▸ ho⟩
    | ok cids =>
      rw [ho] at h
      exact v12_loop_error oracle pfx rest _ _ e h

/-! ### Characterizations of `compute_ids_summary` -/

lemma compute_empty (oracle : Oracle) (v text : String)
    (h : extract_unique_int_strings text = []) :
    compute_ids_summary oracle v text = Except.ok (⟨0, 0, 0, "", []⟩, []) := by
  simp only [compute_ids_summary, h]
  rfl

lemma compute_legacy (oracle : Oracle) (v text : String)
    (h1 : is_v11_style v = true) (h2 : extract_unique_int_strings text ≠ []) :
    compute_ids_summary oracle v text =
      compute_ids_summary_v11 oracle v (extract_unique_int_strings text) := by
  simp only [compute_ids_summary, h1]
  rw [if_neg h2]
  simp

lemma compute_v11_ok {oracle : Oracle} {v : String} {ids : List String}
    {r : SummaryReport} {log : List String} (hne : ids ≠ [])
    (h : compute_ids_summary_v11 oracle v ids = Except.ok (r, log)) :
    r.total_ids_input = ids.length ∧
    r.ids_without_cards =
      ids.filter (fun i => probe_empty oracle (q11 (tag_pfx v) i)) ∧
    r.total_ids_without_cards = r.ids_without_cards.length ∧
    r.ids_expr = "(" ++ String.intercalate " OR "
      (ids.map (fun i => q11 (tag_pfx v) i)) ++ ")" ∧
    log = ids.map (fun i => q11 (tag_pfx v) i) ∧
    (∀ q ∈ log, ∃ cids, oracle q = Except.ok cids) := by
  simp only [compute_ids_summary_v11] at h
  rw [if_neg hne] at h
  cases hl : v11_loop oracle (tag_pfx v) ids ∅ [] [] with
  | error e =>
    rw [hl] at h
    exact absurd h (by simp)
  | ok t =>
    obtain ⟨all_cids, ids_without, log2⟩ := t
    rw [hl] at h
    obtain ⟨hw, hlog, hq⟩ :=
      v11_loop_ok oracle (tag_pfx v) ids ∅ [] [] all_cids ids_without log2 hl
    simp only [List.nil_append] at hw hlog
    rw [if_neg hne] at h
    simp only [Except.ok.injEq, Prod.mk.injEq] at h
    obtain ⟨hr, hlg⟩ := h
    subst hr
    subst hlg
    refine ⟨rfl, by simpa using hw, rfl, rfl, hlog, ?_⟩
    intro q hql
    rcases hq q hql with hmem | hok
    · simp at hmem
    · exact hok

lemma compute_modern_ok {oracle : Oracle} {v text : String}
    {r : SummaryReport} {log : List String}
    (h1 : is_v11_style v = false)
    (h2 : extract_unique_int_strings text ≠ [])
    (h : compute_ids_summary oracle v text = Except.ok (r, log)) :
    r.total_ids_input = (extract_unique_int_strings text).length ∧
    r.ids_expr = build_tag_or_query (extract_unique_int_strings text) v ∧
    (∃ cids_all, oracle r.ids_expr = Except.ok cids_all ∧
      r.total_cards = cids_all.toFinset.card) ∧
    r.ids_without_cards = (extract_unique_int_strings text).filter
      (fun i => probe_empty oracle (q12 (tag_pfx v) i)) ∧
    r.total_ids_without_cards = r.ids_without_cards.length ∧
    log = r.ids_expr ::
      (extract_unique_int_strings text).map (fun i => q12 (tag_pfx v) i) ∧
    (∀ q ∈ log, ∃ cids, oracle q = Except.ok cids) := by
  have hdig : ∀ i ∈ extract_unique_int_strings text,
      i.data ≠ [] ∧ ∀ c ∈ i.data, isDigitChar c = true :=
    fun i hi => extract_mem_digit hi
  have hbq : build_tag_or_query (extract_unique_int_strings text) v ≠ "" :=
    build_tag_or_query_ne_empty v h2 hdig
  simp only [compute_ids_summary, h1] at h
  rw [if_neg h2] at h
  simp only [Bool.false_eq_true, if_false] at h
  rw [if_neg hbq] at h
  cases ho : oracle (build_tag_or_query (extract_unique_int_strings text) v) with
  | error e =>
    rw [ho] at h
    exact absurd h (by simp)
  | ok cids_all =>
    rw [ho] at h
    cases hl : v12_loop oracle (tag_pfx v) (extract_unique_int_strings text) []
        [build_tag_or_query (extract_unique_int_strings text) v] with
    | error e =>
      rw [hl] at h
      exact absurd h (by simp)
    | ok t =>
      obtain ⟨ids_without, log2⟩ := t
      rw [hl] at h
      obtain ⟨hw, hlog, hq⟩ :=
        v12_loop_ok oracle (tag_pfx v) (extract_unique_int_strings text) []
          [build_tag_or_query (extract_unique_int_strings text) v]
          ids_without log2 hl
      simp only [List.nil_append] at hw
      simp only [Except.ok.injEq, Prod.mk.injEq] at h
      obtain ⟨hr, hlg⟩ := h
      subst hr
      subst hlg
      refine ⟨rfl, rfl, ⟨cids_all, ho, rfl⟩, by simpa using hw, rfl, by simpa using hlog, ?_⟩
      intro q hql
      rcases hq q hql with hmem | hok
      · refine ⟨cids_all, ?_⟩
        have : q = build_tag_or_query (extract_unique_int_strings text) v := by
          simpa using hmem
        rw [this]
        exact ho
      · exact hok

lemma compute_v11_error {oracle : Oracle} {v : String} {ids : List String}
    {e : String}
    (h : compute_ids_summary_v11 oracle v ids = Except.error e) :
    ∃ q, oracle q = Except.error e := by
  simp only [compute_ids_summary_v11] at h
  by_cases hne : ids = []
  · rw [if_pos hne] at h
    exact absurd h (by simp)
  · rw [if_neg hne] at h
    cases hl : v11_loop oracle (tag_pfx v) ids ∅ [] [] with
    | error e2 =>
      rw [hl] at h
      simp only [Except.error.injEq] at h
      exact h ▸ v11_loop_error oracle (tag_pfx v) ids ∅ [] [] e2 hl
    | ok t =>
      obtain ⟨a, b, c⟩ := t
      rw [hl] at h
      exact absurd h (by simp)

lemma compute_error_sound {oracle : Oracle} {v text : String} {e : String}
    (h : compute_ids_summary oracle v text = Except.error e) :
    ∃ q, oracle q = Except.error e := by
  by_cases hids : extract_unique_int_strings text = []
  · rw [compute_empty oracle v text hids] at h
    exact absurd h (by simp)
  · cases hv : is_v11_style v with
    | true =>
      rw [compute_legacy oracle v text hv hids] at h
      exact compute_v11_error h
    | false =>
      have hdig : ∀ i ∈ extract_unique_int_strings text,
      i.data ≠ [] ∧ ∀ c ∈ i.data, isDigitChar c = true :=
    fun i hi => extract_mem_digit hi
      have hbq : build_tag_or_query (extract_unique_int_strings text) v ≠ "" :=
        build_tag_or_query_ne_empty v hids hdig
      simp only [compute_ids_summary, hv] at h
      rw [if_neg hids] at h
      simp only [Bool.false_eq_true, if_false] at h
      rw [if_neg hbq] at h
      cases ho : oracle (build_tag_or_query (extract_unique_int_strings text) v) with
      | error e2 =>
        rw [ho] at h
        simp only [Except.error.injEq] at h
        exact ⟨_, h ▸ ho⟩
      | ok cids_all =>
        rw [ho] at h
        cases hl : v12_loop oracle (tag_pfx v) (extract_unique_int_strings text) []
            [build_tag_or_query (extract_unique_int_strings text) v] with
        | error e2 =>
          rw [hl] at h
          simp only [Except.error.injEq] at h
          exact h ▸ v12_loop_error oracle (tag_pfx v) _ _ _ e2 hl
        | ok t =>
          obtain ⟨a, b⟩ := t
          rw [hl] at h
          exact absurd h (by simp)

lemma compute_modern_aggregate_error {oracle : Oracle} {v text : String}
    {e : String} (h1 : is_v11_style v = false)
    (h2 : extract_unique_int_strings text ≠ [])
    (ho : oracle (build_tag_or_query (extract_unique_int_strings text) v) =
      Except.error e) :
    compute_ids_summary oracle v text = Except.error e := by
  have hdig : ∀ i ∈ extract_unique_int_strings text,
      i.data ≠ [] ∧ ∀ c ∈ i.data, isDigitChar c = true :=
    fun i hi => extract_mem_digit hi
  have hbq : build_tag_or_query (extract_unique_int_strings text) v ≠ "" :=
    build_tag_or_query_ne_empty v h2 hdig
  simp only [compute_ids_summary, h1]
  rw [if_neg h2]
  simp only [Bool.false_eq_true, if_false]
  rw [if_neg hbq, ho]

lemma compute_legacy_first_probe_error {oracle : Oracle} {v text : String}
    {e : String} {i0 : String} {rest : List String}
    (h1 : is_v11_style v = true)
    (h2 : extract_unique_int_strings text = i0 :: rest)
    (ho : oracle (q11 (tag_pfx v) i0) = Except.error e) :
    compute_ids_summary oracle v text = Except.error e := by
  rw [compute_legacy oracle v text h1 (by rw [h2]; simp), h2]
  simp only [compute_ids_summary_v11]
  rw [if_neg (by simp)]
  unfold v11_loop
  rw [ho]

lemma q12_expand (p i : String) :
    q12 p i = "tag:\"" ++ esc p ++ esc i ++ "\"" := by
  unfold q12
  rw [esc_append, ← String.append_assoc]

lemma data_ne_nil_of_ne_empty {s : String} (h : s ≠ "") : s.data ≠ [] := by
  intro hd
  exact h (String.ext hd)

/-! ### Claim theorems -/

/-- C2: for every selection value, if it ends with `"_v11"` or is the legacy
exception `"AK_Step3_v12"`, then `_tag_prefix` returns the normalized version
token followed by the legacy segment `"::#UWorld::"`; for every other
selection it returns the normalized token followed by the current segment
`"::#UWorld::Step::"`. -/
theorem claim_C2_tag_prefix_segments (v : String) :
    ((py_endswith v "_v11" || v == "AK_Step3_v12") = true →
      tag_pfx v = normalize_version_pfx v ++ "::#UWorld::") ∧
    ((py_endswith v "_v11" || v == "AK_Step3_v12") = false →
      tag_pfx v = normalize_version_pfx v ++ "::#UWorld::Step::") := by
  constructor
  · intro h
    simp only [tag_pfx, is_v11_style, h]
    rfl
  · intro h
    simp only [tag_pfx, is_v11_style, h]
    rfl

/-- Witness for C2 at the three kinds of selection: a V11 step, the V12
Step 3 legacy exception, and a current V12 step. -/
theorem claim_C2_witness :
    tag_pfx "AK_Step1_v11" = normalize_version_pfx "AK_Step1_v11" ++ "::#UWorld::" ∧
    tag_pfx "AK_Step3_v12" = normalize_version_pfx "AK_Step3_v12" ++ "::#UWorld::" ∧
    tag_pfx "AK_Step1_v12" = normalize_version_pfx "AK_Step1_v12" ++ "::#UWorld::Step::" :=
  ⟨(claim_C2_tag_prefix_segments "AK_Step1_v11").1 (by decide),
   (claim_C2_tag_prefix_segments "AK_Step3_v12").1 (by decide),
   (claim_C2_tag_prefix_segments "AK_Step1_v12").2 (by decide)⟩

/-- C5: identifier extraction returns exactly the maximal decimal-digit runs
of the text in order of first occurrence with later duplicates removed
(string equality, leading zeros preserved); the runs jointly carry every
digit character of the text in order; whitespace-only input yields the empty
sequence; and `extract("3,3,1,2,1") = ["3","1","2"]`. -/
theorem claim_C5_extraction (raw : String) :
    extract_unique_int_strings raw = specDedup (digit_runs raw) ∧
    (extract_unique_int_strings raw).Nodup ∧
    (∀ s ∈ extract_unique_int_strings raw,
      s ≠ "" ∧ ∀ c ∈ s.data, isDigitChar c = true) ∧
    (∀ s ∈ digit_runs raw, s ∈ extract_unique_int_strings raw) ∧
    (extract_unique_int_strings raw).Sublist (digit_runs raw) ∧
    ((digit_runs raw).map String.data).flatten = raw.data.filter isDigitChar ∧
    ((∀ c ∈ raw.data, isSpaceChar c = true) →
      extract_unique_int_strings raw = []) ∧
    extract_unique_int_strings "3,3,1,2,1" = ["3", "1", "2"] := by
  refine ⟨extract_eq_specDedup raw, extract_nodup raw, ?_, ?_, extract_sublist raw,
    digitRunsAux_flatten raw.data [], ?_, by decide⟩
  · intro s hs
    obtain ⟨h1, h2⟩ := extract_mem_digit hs
    exact ⟨fun he => h1 (congrArg String.data he), h2⟩
  · intro s hs
    exact extract_mem_runs hs
  · intro hws
    apply extract_empty_of_no_digit
    intro c hc
    cases hd : isDigitChar c with
    | false => rfl
    | true =>
      have := isSpaceChar_of_isDigitChar hd
      rw [hws c hc] at this
      exact absurd this (by simp)

/-- Witness for C5: the whitespace-only and membership hypotheses discharged
at concrete inputs. -/
theorem claim_C5_witness :
    extract_unique_int_strings " " = [] ∧
    ("3" ≠ "" ∧ ∀ c ∈ "3".data, isDigitChar c = true) :=
  ⟨(claim_C5_extraction " ").2.2.2.2.2.2.1 (by decide),
   (claim_C5_extraction "3,3,1,2,1").2.2.1 "3" (by decide)⟩

/-- C6: for every list of identifiers (nonempty decimal-digit strings, per
the data model) and every selection, the aggregate expression built by
`build_tag_or_query` is `"("` followed by the terms `tag:"<prefix><id>"` for
each identifier in order, joined by `" OR "`, followed by `")"`, with double
quotes in the prefix and the identifier escaped by `_esc`; the empty
identifier list yields the empty string. -/
theorem claim_C6_aggregate_expression (ids : List String) (v : String)
    (h : ∀ i ∈ ids, i ≠ "" ∧ ∀ c ∈ i.data, isDigitChar c = true) :
    build_tag_or_query [] v = "" ∧
    build_tag_or_query ids v =
      (if ids = [] then ""
       else "(" ++ String.intercalate " OR "
         (ids.map (fun i => "tag:\"" ++ esc (tag_pfx v) ++ esc i ++ "\"")) ++ ")") := by
  constructor
  · rfl
  · rw [build_tag_or_query_digits v
      (fun i hi => ⟨data_ne_nil_of_ne_empty (h i hi).1, (h i hi).2⟩)]
    by_cases hne : ids = []
    · rw [if_pos hne, if_pos hne]
    · rw [if_neg hne, if_neg hne]
      congr 3
      apply List.map_congr_left
      intro i _
      exact q12_expand (tag_pfx v) i

/-- Witness for C6 at the concrete example of the spec:
`buildAggregateExpression(["5"], V12 Step 1)`. -/
theorem claim_C6_witness :
    build_tag_or_query [] "AK_Step1_v12" = "" ∧
    build_tag_or_query ["5"] "AK_Step1_v12" =
      (if (["5"] : List String) = [] then ""
       else "(" ++ String.intercalate " OR "
         ((["5"] : List String).map
           (fun i => "tag:\"" ++ esc (tag_pfx "AK_Step1_v12") ++ esc i ++ "\"")) ++ ")") :=
  claim_C6_aggregate_expression ["5"] "AK_Step1_v12" (by decide)

/-- C9 counterexample: the unrecognized, non-empty selection value `"bogus"`
is NOT replaced by the default selection `"AK_Step1_v12"`; it is merely
prefixed with `"#"`, so the resulting tag prefix differs from the default
prefix of the default selection.  This refutes the claim that every unrecognized selection
falls back to the default. -/
theorem claim_C9_counterexample :
    tag_pfx "bogus" = "#bogus::#UWorld::Step::" ∧
    tag_pfx "AK_Step1_v12" = "#AK_Step1_v12::#UWorld::Step::" ∧
    tag_pfx "bogus" ≠ tag_pfx "AK_Step1_v12" := by
  refine ⟨by decide, by decide, by decide⟩

/-- C9 amended: only an empty or whitespace-only selection value falls back
to the fixed default selection `"AK_Step1_v12"` before composing the token;
for such values the resulting tag prefix equals the prefix produced for the
default selection.  (Unrecognized non-empty values are kept, merely prefixed
with the `#` marker.) -/
theorem claim_C9_amended (v : String)
    (h : ∀ c ∈ v.data, isSpaceChar c = true) :
    normalize_version_pfx v = normalize_version_pfx "AK_Step1_v12" ∧
    tag_pfx v = tag_pfx "AK_Step1_v12" := by
  have hstrip : pyStrip v = "" := by
    unfold pyStrip
    rw [stripList_of_all_space h]
  have hno11 : py_endswith v "_v11" = false := by
    cases hb : py_endswith v "_v11" with
    | false => rfl
    | true =>
      have hsuf : "_v11".data <:+ v.data := by
        have := List.isSuffixOf_iff_suffix.mp hb
        exact this
      have h1 : '1' ∈ v.data := hsuf.sublist.subset (by decide)
      have := h '1' h1
      exact absurd this (by decide)
  have hne3 : (v == "AK_Step3_v12") = false := by
    cases hb : v == "AK_Step3_v12" with
    | false => rfl
    | true =>
      have hv : v = "AK_Step3_v12" := eq_of_beq hb
      subst hv
      have := h 'A' (by decide)
      exact absurd this (by decide)
  have hstyle : is_v11_style v = false := by
    unfold is_v11_style
    rw [hno11, hne3]
    rfl
  have hnorm : normalize_version_pfx v = normalize_version_pfx "AK_Step1_v12" := by
    simp only [normalize_version_pfx, hstrip]
    decide
  refine ⟨hnorm, ?_⟩
  have h12 : is_v11_style "AK_Step1_v12" = false := by decide
  simp only [tag_pfx, hstyle, h12, Bool.false_eq_true, if_false]
  rw [hnorm]

/-- Witness for C9 amended at the whitespace-only selection `"   "`. -/
theorem claim_C9_witness :
    normalize_version_pfx "   " = normalize_version_pfx "AK_Step1_v12" ∧
    tag_pfx "   " = tag_pfx "AK_Step1_v12" :=
  claim_C9_amended "   " (by decide)

/-! ### Concrete collaborators used in witnesses and counterexamples -/

/-- A collaborator that raises on every query. -/
def oracleFail : Oracle := fun _ => Except.error "search failed"

/-- A collaborator that returns card 7 for every query. -/
def oracleOne : Oracle := fun _ => Except.ok [7]

/-- A collaborator under which the aggregate expression of the legacy path
would match three cards while each per-identifier probe matches one. -/
def oracleC3 : Oracle := fun q =>
  if q = "tag:\"#AK_Step1_v11::#UWorld::*::5\"" then Except.ok [1]
  else Except.ok [1, 2, 3]

/-- A collaborator under which the probe for identifier 6 is empty and every
other query matches card 5. -/
def oracleC4 : Oracle := fun q =>
  if q = "tag:\"#AK_Step1_v12::#UWorld::Step::6\"" then Except.ok []
  else Except.ok [5]

/-- C1: a collaborator failure during `compute_ids_summary` — on the
aggregate pass or on a per-identifier probe — propagates to the caller as
the same error and no report is produced; every error of the computation is
a genuine collaborator error, and a returned report implies every issued
query succeeded. -/
theorem claim_C1_failure_propagation (oracle : Oracle) (v text : String) :
    (∀ e, compute_ids_summary oracle v text = Except.error e →
      ∃ q, oracle q = Except.error e) ∧
    (∀ r log, compute_ids_summary oracle v text = Except.ok (r, log) →
      ∀ q ∈ log, ∃ cids, oracle q = Except.ok cids) ∧
    (∀ e, is_v11_style v = false → extract_unique_int_strings text ≠ [] →
      oracle (build_tag_or_query (extract_unique_int_strings text) v) =
        Except.error e →
      compute_ids_summary oracle v text = Except.error e) ∧
    (∀ e i0 rest, is_v11_style v = true →
      extract_unique_int_strings text = i0 :: rest →
      oracle (q11 (tag_pfx v) i0) = Except.error e →
      compute_ids_summary oracle v text = Except.error e) := by
  refine ⟨fun e he => compute_error_sound he, ?_, ?_, ?_⟩
  · intro r log h q hq
    by_cases hids : extract_unique_int_strings text = []
    · rw [compute_empty oracle v text hids] at h
      simp only [Except.ok.injEq, Prod.mk.injEq] at h
      obtain ⟨-, hlg⟩ := h
      rw [← hlg] at hq
      simp at hq
    · cases hv : is_v11_style v with
      | true =>
        rw [compute_legacy oracle v text hv hids] at h
        exact (compute_v11_ok hids h).2.2.2.2.2 q hq
      | false =>
        exact (compute_modern_ok hv hids h).2.2.2.2.2.2 q hq
  · intro e h1 h2 ho
    exact compute_modern_aggregate_error h1 h2 ho
  · intro e i0 rest h1 h2 ho
    exact compute_legacy_first_probe_error h1 h2 ho

/-- Witness for C1: with an always-raising collaborator, both the modern
aggregate pass and the legacy first probe propagate the error. -/
theorem claim_C1_witness :
    compute_ids_summary oracleFail "AK_Step1_v12" "5" =
      Except.error "search failed" ∧
    compute_ids_summary oracleFail "AK_Step1_v11" "5" =
      Except.error "search failed" ∧
    (∃ q, oracleFail q = Except.error "search failed") := by
  refine ⟨?_, ?_, ?_⟩
  · exact (claim_C1_failure_propagation oracleFail "AK_Step1_v12" "5").2.2.1
      "search failed" (by decide) (by decide) rfl
  · exact (claim_C1_failure_propagation oracleFail "AK_Step1_v11" "5").2.2.2
      "search failed" "5" [] (by decide) (by decide) rfl
  · exact (claim_C1_failure_propagation oracleFail "AK_Step1_v12" "5").1
      "search failed"
      ((claim_C1_failure_propagation oracleFail "AK_Step1_v12" "5").2.2.1
        "search failed" (by decide) (by decide) rfl)

/-- C3 counterexample: for the legacy selection `"AK_Step1_v11"` with input
`"5"`, the computation never issues the aggregate expression (the log holds
only the per-identifier probe), and the reported `total_cards` is 1, the
size of the union of the probe results, while the collaborator would return
a 3-element set for the aggregate expression.  This refutes the claim for
legacy selections. -/
theorem claim_C3_counterexample :
    compute_ids_summary oracleC3 "AK_Step1_v11" "5" =
      Except.ok (⟨1, 1, 0, "(tag:\"#AK_Step1_v11::#UWorld::*::5\")", []⟩,
        ["tag:\"#AK_Step1_v11::#UWorld::*::5\""]) ∧
    oracleC3 "(tag:\"#AK_Step1_v11::#UWorld::*::5\")" = Except.ok [1, 2, 3] ∧
    ([1, 2, 3] : List ℕ).toFinset.card = 3 ∧
    (1 : ℕ) ≠ 3 ∧
    "(tag:\"#AK_Step1_v11::#UWorld::*::5\")" ∉
      ["tag:\"#AK_Step1_v11::#UWorld::*::5\""] := by
  refine ⟨by decide, by decide, by decide, by decide, by decide⟩

/-- C3 amended: for every NON-legacy selection (not ending in `"_v11"` and
not equal to `"AK_Step3_v12"`) and every input text yielding a non-empty
identifier list, `compute_ids_summary` issues the aggregate expression as
its first collaborator query and reports the size of the card-id set
returned by that query as `total_cards`.  (For legacy-layout selections the
aggregate expression is only recorded in the report, not issued, and
`total_cards` is the size of the union of the per-identifier probe
results.) -/
theorem claim_C3_amended (oracle : Oracle) (v text : String)
    (r : SummaryReport) (log : List String)
    (h1 : is_v11_style v = false)
    (h2 : extract_unique_int_strings text ≠ [])
    (h : compute_ids_summary oracle v text = Except.ok (r, log)) :
    r.ids_expr = build_tag_or_query (extract_unique_int_strings text) v ∧
    log.head? = some r.ids_expr ∧
    ∃ cids_all, oracle r.ids_expr = Except.ok cids_all ∧
      r.total_cards = cids_all.toFinset.card := by
  obtain ⟨-, hexpr, hagg, -, -, hlog, -⟩ := compute_modern_ok h1 h2 h
  refine ⟨hexpr, ?_, hagg⟩
  rw [hlog]
  rfl

/-- Witness for C3 amended at selection V12 Step 1 and input `"5"`. -/
theorem claim_C3_witness :
    (⟨1, 1, 0, "(tag:\"#AK_Step1_v12::#UWorld::Step::5\")", []⟩ :
        SummaryReport).ids_expr =
      build_tag_or_query (extract_unique_int_strings "5") "AK_Step1_v12" ∧
    (["(tag:\"#AK_Step1_v12::#UWorld::Step::5\")",
      "tag:\"#AK_Step1_v12::#UWorld::Step::5\""] : List String).head? =
      some (⟨1, 1, 0, "(tag:\"#AK_Step1_v12::#UWorld::Step::5\")", []⟩ :
        SummaryReport).ids_expr ∧
    ∃ cids_all, oracleOne (⟨1, 1, 0,
        "(tag:\"#AK_Step1_v12::#UWorld::Step::5\")", []⟩ :
        SummaryReport).ids_expr = Except.ok cids_all ∧
      (⟨1, 1, 0, "(tag:\"#AK_Step1_v12::#UWorld::Step::5\")", []⟩ :
        SummaryReport).total_cards = cids_all.toFinset.card :=
  claim_C3_amended oracleOne "AK_Step1_v12" "5"
    ⟨1, 1, 0, "(tag:\"#AK_Step1_v12::#UWorld::Step::5\")", []⟩
    ["(tag:\"#AK_Step1_v12::#UWorld::Step::5\")",
     "tag:\"#AK_Step1_v12::#UWorld::Step::5\""]
    (by decide) (by decide) (by decide)

/-- C4: whenever `compute_ids_summary` returns a report for a non-empty
extracted identifier list, it has issued exactly one per-identifier probe
per identifier (preceded, on the non-legacy path only, by the aggregate
query); an identifier is listed in `ids_without_cards` iff its probe
returned the empty set; and `ids_without_cards` is the in-order filtering
of the extracted identifier sequence, hence preserves first-occurrence
input order. -/
theorem claim_C4_probe_accounting (oracle : Oracle) (v text : String)
    (r : SummaryReport) (log : List String)
    (h2 : extract_unique_int_strings text ≠ [])
    (h : compute_ids_summary oracle v text = Except.ok (r, log)) :
    log = (if is_v11_style v = true then []
           else [build_tag_or_query (extract_unique_int_strings text) v]) ++
      (extract_unique_int_strings text).map
        (fun i => per_id_query v i) ∧
    r.ids_without_cards = (extract_unique_int_strings text).filter
      (fun i => probe_empty oracle (per_id_query v i)) ∧
    (∀ i ∈ extract_unique_int_strings text,
      (i ∈ r.ids_without_cards ↔
        probe_empty oracle (per_id_query v i) = true)) ∧
    r.ids_without_cards.Sublist (extract_unique_int_strings text) := by
  have main : log = (if is_v11_style v = true then []
           else [build_tag_or_query (extract_unique_int_strings text) v]) ++
      (extract_unique_int_strings text).map (fun i => per_id_query v i) ∧
      r.ids_without_cards = (extract_unique_int_strings text).filter
        (fun i => probe_empty oracle (per_id_query v i)) := by
    cases hv : is_v11_style v with
    | true =>
      rw [compute_legacy oracle v text hv h2] at h
      obtain ⟨-, hw, -, -, hlog, -⟩ := compute_v11_ok h2 h
      simp only [per_id_query, hv, if_true, if_pos rfl, List.nil_append]
      exact ⟨hlog, hw⟩
    | false =>
      obtain ⟨-, hexpr, -, hw, -, hlog, -⟩ := compute_modern_ok hv h2 h
      simp only [per_id_query, hv, Bool.false_eq_true, if_false]
      rw [← hexpr]
      constructor
      · rw [hlog]
        rfl
      · exact hw
  refine ⟨main.1, main.2, ?_, ?_⟩
  · intro i hi
    rw [main.2]
    constructor
    · intro hmem
      exact (List.mem_filter.mp hmem).2
    · intro hpe
      exact List.mem_filter.mpr ⟨hi, hpe⟩
  · rw [main.2]
    exact List.filter_sublist _

/-- Witness for C4 at selection V12 Step 1, input `"5 6"`, and a
collaborator whose probe for identifier 6 is empty. -/
theorem claim_C4_witness :
    (⟨2, 1, 1,
      "(tag:\"#AK_Step1_v12::#UWorld::Step::5\" OR tag:\"#AK_Step1_v12::#UWorld::Step::6\")",
      ["6"]⟩ : SummaryReport).ids_without_cards =
      (extract_unique_int_strings "5 6").filter
        (fun i => probe_empty oracleC4 (per_id_query "AK_Step1_v12" i)) ∧
    (⟨2, 1, 1,
      "(tag:\"#AK_Step1_v12::#UWorld::Step::5\" OR tag:\"#AK_Step1_v12::#UWorld::Step::6\")",
      ["6"]⟩ : SummaryReport).ids_without_cards.Sublist
      (extract_unique_int_strings "5 6") :=
  ⟨(claim_C4_probe_accounting oracleC4 "AK_Step1_v12" "5 6"
      ⟨2, 1, 1,
        "(tag:\"#AK_Step1_v12::#UWorld::Step::5\" OR tag:\"#AK_Step1_v12::#UWorld::Step::6\")",
        ["6"]⟩
      ["(tag:\"#AK_Step1_v12::#UWorld::Step::5\" OR tag:\"#AK_Step1_v12::#UWorld::Step::6\")",
       "tag:\"#AK_Step1_v12::#UWorld::Step::5\"",
       "tag:\"#AK_Step1_v12::#UWorld::Step::6\""]
      (by decide) (by decide)).2.1,
   (claim_C4_probe_accounting oracleC4 "AK_Step1_v12" "5 6"
      ⟨2, 1, 1,
        "(tag:\"#AK_Step1_v12::#UWorld::Step::5\" OR tag:\"#AK_Step1_v12::#UWorld::Step::6\")",
        ["6"]⟩
      ["(tag:\"#AK_Step1_v12::#UWorld::Step::5\" OR tag:\"#AK_Step1_v12::#UWorld::Step::6\")",
       "tag:\"#AK_Step1_v12::#UWorld::Step::5\"",
       "tag:\"#AK_Step1_v12::#UWorld::Step::6\""]
      (by decide) (by decide)).2.2.2⟩

/-- C7: for every legacy-layout selection, the queries issued by
`compute_ids_summary` are exactly the wildcard fragments
`tag:"<prefix>*::<id>"` (quotes escaped) for the extracted identifiers in
order; in particular for selection V12 Step 3 and identifier `"7"` the
fragment is `tag:"#AK_Step3_v12::#UWorld::*::7"`. -/
theorem claim_C7_wildcard_fragments (oracle : Oracle) (v text : String)
    (r : SummaryReport) (log : List String)
    (h1 : is_v11_style v = true)
    (h : compute_ids_summary oracle v text = Except.ok (r, log)) :
    log = (extract_unique_int_strings text).map
      (fun i => "tag:\"" ++ esc (tag_pfx v) ++ "*::" ++ esc i ++ "\"") ∧
    per_id_query "AK_Step3_v12" "7" = "tag:\"#AK_Step3_v12::#UWorld::*::7\"" := by
  refine ⟨?_, by decide⟩
  by_cases hids : extract_unique_int_strings text = []
  · rw [compute_empty oracle v text hids] at h
    simp only [Except.ok.injEq, Prod.mk.injEq] at h
    rw [← h.2, hids]
    rfl
  · rw [compute_legacy oracle v text h1 hids] at h
    exact (compute_v11_ok hids h).2.2.2.2.1

/-- Witness for C7 at selection V12 Step 3 and input `"7"`. -/
theorem claim_C7_witness :
    (["tag:\"#AK_Step3_v12::#UWorld::*::7\""] : List String) =
      (extract_unique_int_strings "7").map
        (fun i => "tag:\"" ++ esc (tag_pfx "AK_Step3_v12") ++ "*::" ++ esc i ++ "\"") ∧
    per_id_query "AK_Step3_v12" "7" = "tag:\"#AK_Step3_v12::#UWorld::*::7\"" :=
  claim_C7_wildcard_fragments oracleOne "AK_Step3_v12" "7"
    ⟨1, 1, 0, "(tag:\"#AK_Step3_v12::#UWorld::*::7\")", []⟩
    ["tag:\"#AK_Step3_v12::#UWorld::*::7\""]
    (by decide) (by decide)

/-- C8: for every selection, when identifier extraction of the raw text is
empty, `compute_ids_summary` returns the all-zero report with empty
expression and empty list, issues no collaborator query (empty log), and
its result does not depend on the collaborator at all. -/
theorem claim_C8_empty_input (oracle : Oracle) (v text : String)
    (h : extract_unique_int_strings text = []) :
    compute_ids_summary oracle v text = Except.ok (⟨0, 0, 0, "", []⟩, []) ∧
    (∀ oracle2 : Oracle,
      compute_ids_summary oracle v text = compute_ids_summary oracle2 v text) := by
  refine ⟨compute_empty oracle v text h, ?_⟩
  intro oracle2
  rw [compute_empty oracle v text h, compute_empty oracle2 v text h]

/-- Witness for C8 at a digit-free input and an always-raising
collaborator. -/
theorem claim_C8_witness :
    compute_ids_summary oracleFail "AK_Step1_v12" "no ids here!" =
      Except.ok (⟨0, 0, 0, "", []⟩, []) :=
  (claim_C8_empty_input oracleFail "AK_Step1_v12" "no ids here!" (by decide)).1

/-- C10: every report returned by `compute_ids_summary` has
`total_ids_input` equal to the number of distinct extracted identifiers,
`total_ids_without_cards` equal to the length of `ids_without_cards`, and
`ids_without_cards` a subsequence of the extracted identifier sequence. -/
theorem claim_C10_report_invariants (oracle : Oracle) (v text : String)
    (r : SummaryReport) (log : List String)
    (h : compute_ids_summary oracle v text = Except.ok (r, log)) :
    r.total_ids_input = (extract_unique_int_strings text).length ∧
    r.total_ids_without_cards = r.ids_without_cards.length ∧
    r.ids_without_cards.Sublist (extract_unique_int_strings text) := by
  by_cases hids : extract_unique_int_strings text = []
  · rw [compute_empty oracle v text hids] at h
    simp only [Except.ok.injEq, Prod.mk.injEq] at h
    rw [← h.1, hids]
    exact ⟨rfl, rfl, List.Sublist.refl _⟩
  · cases hv : is_v11_style v with
    | true =>
      rw [compute_legacy oracle v text hv hids] at h
      obtain ⟨hinput, hw, hcount, -, -, -⟩ := compute_v11_ok hids h
      refine ⟨hinput, hcount, ?_⟩
      rw [hw]
      exact List.filter_sublist _
    | false =>
      obtain ⟨hinput, -, -, hw, hcount, -, -⟩ := compute_modern_ok hv hids h
      refine ⟨hinput, hcount, ?_⟩
      rw [hw]
      exact List.filter_sublist _

/-- Witness for C10 at selection V12 Step 1, input `"5"`. -/
theorem claim_C10_witness :
    (⟨1, 1, 0, "(tag:\"#AK_Step1_v12::#UWorld::Step::5\")", []⟩ :
        SummaryReport).total_ids_input =
      (extract_unique_int_strings "5").length ∧
    (⟨1, 1, 0, "(tag:\"#AK_Step1_v12::#UWorld::Step::5\")", []⟩ :
        SummaryReport).total_ids_without_cards =
      (⟨1, 1, 0, "(tag:\"#AK_Step1_v12::#UWorld::Step::5\")", []⟩ :
        SummaryReport).ids_without_cards.length ∧
    (⟨1, 1, 0, "(tag:\"#AK_Step1_v12::#UWorld::Step::5\")", []⟩ :
        SummaryReport).ids_without_cards.Sublist
      (extract_unique_int_strings "5") :=
  claim_C10_report_invariants oracleOne "AK_Step1_v12" "5"
    ⟨1, 1, 0, "(tag:\"#AK_Step1_v12::#UWorld::Step::5\")", []⟩
    ["(tag:\"#AK_Step1_v12::#UWorld::Step::5\")",
     "tag:\"#AK_Step1_v12::#UWorld::Step::5\""]
    (by decide)
